import Mathlib

/-!
Shallow embedding of the canute-ui control software (src/ui of the
repository): the braille encoding utilities (utility.py), the Pageable
pagination base class and its Menu/Library specialisations (pageable.py),
and the DriverBoth forwarding wrapper (driver_both.py).  Machine text is
modelled as lists of characters, files as an association list from path to
file data, and in-place mutation of Python objects as explicit state
passing.
-/

namespace CanuteUI

/-! ### utility.py -/

/-- The fixed 64-character Braille-ASCII table of `alpha_to_pin_num`
(utility.py line 80); a character's index in this string is its pin value. -/
def brailleMappingStr : String :=
  " A1B\x27K2L@CIF/MSP\x22E3H9O6R^DJG>NTQ,*5<-U8V.%[$+X!&;:4\x5c0Z7(_?W]#Y)="

/-- The table as a list of characters. -/
def brailleMapping : List Char := brailleMappingStr.toList

/-- ASCII upper-casing, the behaviour of Python 2 `str.upper` on the byte
strings this code handles. -/
def charUpper (c : Char) : Char :=
  if 'a' ≤ c ∧ c ≤ 'z' then Char.ofNat (c.toNat - 32) else c

/-- `alpha_to_pin_num` (utility.py lines 75-86): upper-case the character
and look it up in the table; `str.index` raising `ValueError` is modelled
by the membership test, the handler returns 0. -/
def alpha_to_pin_num (c : Char) : Nat :=
  let u := charUpper c
  if u ∈ brailleMapping then brailleMapping.indexOf u else 0

/-- `alphas_to_pin_nums` (utility.py lines 70-72). -/
def alphas_to_pin_nums (s : List Char) : List Nat :=
  s.map alpha_to_pin_num

/-- `unicode_to_pin_num` (utility.py lines 30-63), on the code point of the
input character: `int_code = ord(uni_char) - 10240`, then six conditional
subtraction steps with weights 32, 16, 8, 4, 2, 1, each adding its weight
to the accumulated pin number when it fires.  `iK` is `int_code` after
step K, `pK` the contribution step K adds to `pin_num`. -/
def unicode_to_pin_num (cp : Nat) : Nat :=
  let i0 : Int := (cp : Int) - 10240
  let i1 : Int := if 32 ≤ i0 then i0 - 32 else i0
  let p1 : Nat := if 32 ≤ i0 then 32 else 0
  let i2 : Int := if 16 ≤ i1 then i1 - 16 else i1
  let p2 : Nat := if 16 ≤ i1 then 16 else 0
  let i3 : Int := if 8 ≤ i2 then i2 - 8 else i2
  let p3 : Nat := if 8 ≤ i2 then 8 else 0
  let i4 : Int := if 4 ≤ i3 then i3 - 4 else i3
  let p4 : Nat := if 4 ≤ i3 then 4 else 0
  let i5 : Int := if 2 ≤ i4 then i4 - 2 else i4
  let p5 : Nat := if 2 ≤ i4 then 2 else 0
  let p6 : Nat := if 1 ≤ i5 then 1 else 0
  p1 + p2 + p3 + p4 + p5 + p6

example : brailleMapping.length = 64 := by decide
example : alpha_to_pin_num ('a') = 1 := by decide
example : alpha_to_pin_num ('\n') = 0 := by decide
example : unicode_to_pin_num 10240 = 0 := by decide
example : unicode_to_pin_num 10303 = 63 := by decide
example : unicode_to_pin_num 10304 = 63 := by decide

/-! ### Pageable (pageable.py lines 17-158)

Content is a list of lines, each line a list of pin numbers.  The page
index is the only piece of state the navigation operations touch, so they
are functions of the page index (plus the dimensions and the content
length, which they read but never write). -/

/-- `Pageable.get_num_pages` (pageable.py lines 42-44):
`ceil(len(content) / float(rows))` as exact natural arithmetic. -/
def get_num_pages (rows contentLen : Nat) : Nat :=
  (contentLen + rows - 1) / rows

/-- `Pageable.home` (pageable.py lines 130-135). -/
def home (page : Nat) : Nat :=
  if page ≠ 0 then 0 else page

/-- `Pageable.prev` (pageable.py lines 137-142). -/
def prev (page : Nat) : Nat :=
  if page > 0 then page - 1 else page

/-- `Pageable.end` (pageable.py lines 144-151); `end` is a Lean keyword,
hence the name. -/
def pageEnd (rows contentLen page : Nat) : Nat :=
  if get_num_pages rows contentLen = 0 then page
  else if page ≠ get_num_pages rows contentLen - 1 then
    get_num_pages rows contentLen - 1
  else page

/-- `Pageable.next` (pageable.py lines 153-158).  Python compares
`page < num_pages - 1` over the integers; with `page ≥ 0` the comparison
agrees with truncated natural subtraction (for `num_pages = 0` both sides
are false). -/
def next (rows contentLen page : Nat) : Nat :=
  if page < get_num_pages rows contentLen - 1 then page + 1 else page

/-- The in-place padding loop of `fit_content` (pageable.py lines 91-92):
`while len(line) < self.cells: line.append(0)` mutates the line object
until its length is at least `cells`. -/
def padLine (cells : Nat) (line : List Nat) : List Nat :=
  line ++ List.replicate (cells - line.length) 0

/-- One line as `fit_content` emits it (pageable.py lines 91-95): the
in-place zero padding followed by the copying truncation
`line = line[0:self.cells]`. -/
def fitLine (cells : Nat) (line : List Nat) : List Nat :=
  (padLine cells line).take cells

/-- `Pageable.fit_content` (pageable.py lines 82-101): pad/truncate every
line to `cells` entries, then append the single zero block
`[0] * self.cells * missing_rows`. -/
def fit_content (cells rows : Nat) (content : List (List Nat)) : List (List Nat) :=
  content.map (fitLine cells) ++ [List.replicate (cells * (rows - content.length)) 0]

/-- Structural-recursion helper: map a function that also receives the
index, starting the count at `i`.  Used to express which stored lines the
slice in `show` aliases. -/
def mapIdxFrom (f : Nat → List Nat → List Nat) : Nat → List (List Nat) → List (List Nat)
  | _, [] => []
  | i, l :: ls => f i l :: mapIdxFrom f (i + 1) ls

/-- `Pageable.show` (pageable.py lines 104-128).  First component: the
returned flat page.  Second component: the stored `self.content` after the
call — the slice `self.content[start_line:end_line+1]` holds references to
the stored line objects, and the padding loop of `fit_content` mutates
those objects in place (the truncation works on a copy and the zero block
is a fresh list, so neither affects the stored content).
`end_line` is clamped so that the slice upper bound is
`min(start_line + rows, len(content))`. -/
def showPage (cells rows page : Nat) (content : List (List Nat)) :
    List Nat × List (List Nat) :=
  let start_line := page * rows
  let endIdx := min (start_line + rows) content.length
  let selected := (content.drop start_line).take (endIdx - start_line)
  let output := (fit_content cells rows selected).flatten
  let content2 := mapIdxFrom
    (fun i line => if start_line ≤ i ∧ i < endIdx then padLine cells line else line)
    0 content
  (output, content2)

/-- The rendering of `show` as the spec words it: take the current page's
slice of at most `rows` lines, truncate/pad each selected line to `cells`
pin values, append a single zero block of size `cells * (rows -
lines_selected)`, and flatten. -/
def showSpec (cells rows page : Nat) (content : List (List Nat)) : List Nat :=
  let selected := (content.drop (page * rows)).take rows
  ((selected.map (fitLine cells)) ++
    [List.replicate (cells * (rows - selected.length)) 0]).flatten

example : (showPage 3 2 0 [[1]]).1 = [1, 0, 0, 0, 0, 0] := by decide
example : (showPage 3 2 0 [[1]]).2 = [[1, 0, 0]] := by decide
example : (showPage 2 2 1 [[1], [2], [7, 8, 9]]).1 = [7, 8, 0, 0] := by decide
example : (showPage 2 2 1 [[1], [2], [7, 8, 9]]).2 = [[1], [2], [7, 8, 9]] := by decide
example : showSpec 3 2 0 [[1]] = [1, 0, 0, 0, 0, 0] := by decide

theorem fitLine_length (cells : Nat) (line : List Nat) :
    (fitLine cells line).length = cells := by
  simp [fitLine, padLine]
  omega

theorem sum_fitLine_lengths (cells : Nat) (sel : List (List Nat)) :
    (sel.map (List.length ∘ fitLine cells)).sum = sel.length * cells := by
  induction sel with
  | nil => simp
  | cons l t ih =>
      simp only [List.map_cons, List.sum_cons, Function.comp_apply, fitLine_length, ih,
        List.length_cons, Nat.succ_mul]
      omega

theorem fit_content_flatten_length (cells rows : Nat) (sel : List (List Nat))
    (hsel : sel.length ≤ rows) :
    ((fit_content cells rows sel).flatten).length = cells * rows := by
  have h1 : sel.length * cells + cells * (rows - sel.length) = cells * rows := by
    rw [Nat.mul_comm sel.length cells, ← Nat.mul_add]
    congr 1
    omega
  simpa [fit_content, sum_fitLine_lengths] using h1

/-- Claim C1: for every dimensions pair with `cells > 0` and `rows > 0`,
every content and every page index, `Pageable.show` returns exactly
`cells * rows` pin values, built by taking the current page's slice of at
most `rows` lines, truncating/zero-padding each selected line to `cells`
values, appending a single zero block of size
`cells * (rows - lines_selected)`, and flattening. -/
theorem show_returns_exact_page (cells rows page : Nat) (content : List (List Nat))
    (hc : 0 < cells) (hr : 0 < rows) :
    (showPage cells rows page content).1 = showSpec cells rows page content ∧
    (showPage cells rows page content).1.length = cells * rows := by
  have hslice :
      (content.drop (page * rows)).take
          (min (page * rows + rows) content.length - page * rows) =
        (content.drop (page * rows)).take rows := by
    rw [List.take_eq_take]
    simp only [List.length_drop]
    omega
  have htk : ((content.drop (page * rows)).take rows).length ≤ rows := by
    simp [List.length_take]
  constructor
  · simp only [showPage, showSpec, fit_content, hslice]
  · simp only [showPage, hslice]
    exact fit_content_flatten_length cells rows _ htk

/-- Witness for `show_returns_exact_page` at cells = 2, rows = 2, page = 0,
content = [[5]]. -/
theorem show_returns_exact_page_witness :
    (0 : Nat) < 2 ∧
      ((showPage 2 2 0 [[5]]).1 = showSpec 2 2 0 [[5]] ∧
        (showPage 2 2 0 [[5]]).1.length = 2 * 2) :=
  ⟨by decide, show_returns_exact_page 2 2 0 [[5]] (by decide) (by decide)⟩

/-- The page-index invariant of the spec: inside `[0, num_pages - 1]` when
there are pages, pinned to 0 when there are none. -/
def pageInv (numPages page : Nat) : Prop :=
  if numPages = 0 then page = 0 else page < numPages

instance (numPages page : Nat) : Decidable (pageInv numPages page) := by
  unfold pageInv
  infer_instance

/-- Claim C2: starting from a page index satisfying the invariant, each of
`home`, `prev`, `next` and `end` leaves the index inside
`[0, numPages - 1]` (0 on empty content), and each is a no-op at its
respective boundary: `home`/`prev` at page 0, `next`/`end` at the last
page, and all four on empty content. -/
theorem navigation_keeps_page_in_range (rows contentLen page : Nat)
    (hrows : 0 < rows)
    (hinv : pageInv (get_num_pages rows contentLen) page) :
    pageInv (get_num_pages rows contentLen) (home page) ∧
    pageInv (get_num_pages rows contentLen) (prev page) ∧
    pageInv (get_num_pages rows contentLen) (next rows contentLen page) ∧
    pageInv (get_num_pages rows contentLen) (pageEnd rows contentLen page) ∧
    (page = 0 → home page = page ∧ prev page = page) ∧
    (page = get_num_pages rows contentLen - 1 ∨ get_num_pages rows contentLen = 0 →
      next rows contentLen page = page ∧ pageEnd rows contentLen page = page) ∧
    (contentLen = 0 →
      home page = page ∧ prev page = page ∧
      next rows contentLen page = page ∧ pageEnd rows contentLen page = page) := by
  have hnp0 : contentLen = 0 → get_num_pages rows contentLen = 0 := by
    intro h
    subst h
    simp only [get_num_pages, Nat.zero_add]
    exact Nat.div_eq_of_lt (by omega)
  simp only [pageInv, home, prev, next, pageEnd] at *
  generalize hnp : get_num_pages rows contentLen = np at *
  constructor
  · split_ifs at hinv ⊢ <;> omega
  constructor
  · split_ifs at hinv ⊢ <;> omega
  constructor
  · split_ifs at hinv ⊢ <;> omega
  constructor
  · split_ifs at hinv ⊢ <;> omega
  constructor
  · intro h0
    split_ifs at hinv ⊢ <;> omega
  constructor
  · intro hlast
    split_ifs at hinv ⊢ <;> omega
  · intro hempty
    have := hnp0 hempty
    split_ifs at hinv ⊢ <;> omega

/-- Witness for `navigation_keeps_page_in_range` at rows = 9, 20 content
lines (3 pages) and page 1. -/
theorem navigation_keeps_page_in_range_witness :
    (0 : Nat) < 9 ∧ pageInv (get_num_pages 9 20) 1 ∧
      (pageInv (get_num_pages 9 20) (home 1) ∧
       pageInv (get_num_pages 9 20) (prev 1) ∧
       pageInv (get_num_pages 9 20) (next 9 20 1) ∧
       pageInv (get_num_pages 9 20) (pageEnd 9 20 1) ∧
       (1 = 0 → home 1 = 1 ∧ prev 1 = 1) ∧
       (1 = get_num_pages 9 20 - 1 ∨ get_num_pages 9 20 = 0 →
         next 9 20 1 = 1 ∧ pageEnd 9 20 1 = 1) ∧
       (20 = 0 →
         home 1 = 1 ∧ prev 1 = 1 ∧ next 9 20 1 = 1 ∧ pageEnd 9 20 1 = 1)) :=
  ⟨by decide, by decide, navigation_keeps_page_in_range 9 20 1 (by decide) (by decide)⟩

/-- Claim C10: `show` mutates the stored content in place.  With cells = 3
and rows = 2, the single stored line `[1]` (shorter than `cells`) is padded
in place by `fit_content`, so after `show` the stored content is `[[1, 0, 0]]`
— different from the original — and the stored line now has length
`cells`. -/
theorem show_pads_stored_lines_in_place :
    (showPage 3 2 0 [[1]]).2 = [[1, 0, 0]] ∧
    (showPage 3 2 0 [[1]]).2 ≠ [[1]] ∧
    ((showPage 3 2 0 [[1]]).2.getD 0 []).length = 3 := by decide

/-! ### unicode_to_pin_num: claims C4 and C5 -/

/-- Counterexample to claim C4: at code point 0x2840 = 10304 (the Braille
Pattern with only dot 7 raised, inside the range "from U+2800 onward") the
low 6 bits of `codepoint - 0x2800` are 0, but `unicode_to_pin_num` returns
63: the greedy subtraction chain saturates instead of extracting bits. -/
theorem unicode_to_pin_num_not_low_bits :
    unicode_to_pin_num 10304 = 63 ∧ (10304 - 10240) % 64 = 0 ∧
      unicode_to_pin_num 10304 ≠ (10304 - 10240) % 64 := by decide

/-- Claim C4 (amended): for every code point from U+2800 onward,
`unicode_to_pin_num` returns `min (codepoint - 0x2800) 63` — a value in
[0, 63], equal to `codepoint - 0x2800` itself for the 6-dot patterns
`0x2800 + k` with `k` in [0, 63], but saturating at 63 (not the low 6
bits) for code points at or beyond 0x2840. -/
theorem unicode_to_pin_num_saturates (cp : Nat) (h : 10240 ≤ cp) :
    unicode_to_pin_num cp = min (cp - 10240) 63 := by
  simp only [unicode_to_pin_num]
  split_ifs <;> omega

/-- Witness for `unicode_to_pin_num_saturates` at code point 0x2805. -/
theorem unicode_to_pin_num_saturates_witness :
    10240 ≤ 10245 ∧ unicode_to_pin_num 10245 = min (10245 - 10240) 63 :=
  ⟨by decide, unicode_to_pin_num_saturates 10245 (by decide)⟩

/-- Claim C5: for every character whose upper-case form occurs in the
64-character Braille-ASCII table, `alpha_to_pin_num` returns that form's
index in the table, a pin value in [0, 63]; for every other character it
returns 0 instead of failing. -/
theorem alpha_to_pin_num_table_index (c : Char) :
    (charUpper c ∈ brailleMapping →
      alpha_to_pin_num c = brailleMapping.indexOf (charUpper c) ∧
      alpha_to_pin_num c < 64) ∧
    (charUpper c ∉ brailleMapping → alpha_to_pin_num c = 0) := by
  constructor
  · intro hmem
    refine ⟨by simp [alpha_to_pin_num, hmem], ?_⟩
    have hlt : brailleMapping.indexOf (charUpper c) < brailleMapping.length :=
      List.indexOf_lt_length.mpr hmem
    have h64 : brailleMapping.length = 64 := by decide
    simp only [alpha_to_pin_num, if_pos hmem]
    omega
  · intro hmem
    simp [alpha_to_pin_num, hmem]

/-- Witness for `alpha_to_pin_num_table_index` at the lower-case letter
`z`, whose upper-case form sits at index 53 of the table. -/
theorem alpha_to_pin_num_table_index_witness :
    charUpper ('z') ∈ brailleMapping ∧
      alpha_to_pin_num ('z') = brailleMapping.indexOf (charUpper ('z')) ∧
      alpha_to_pin_num ('z') < 64 :=
  ⟨by decide, (alpha_to_pin_num_table_index ('z')).1 (by decide)⟩

/-! ### Library.convert_brf (pageable.py lines 336-367): claim C3 -/

/-- Python `file.readlines`: split the file's characters into lines, each
line keeping its terminating newline; a final unterminated line is kept
too.  `acc` holds the current line's characters in reverse. -/
def readlinesAux : List Char → List Char → List (List Char)
  | [], acc => if acc = [] then [] else [acc.reverse]
  | c :: rest, acc =>
    if c = '\n' then (acc.reverse ++ ['\n']) :: readlinesAux rest []
    else readlinesAux rest (c :: acc)

/-- Python `file.readlines` on the whole file. -/
def readlines (s : List Char) : List (List Char) :=
  readlinesAux s []

/-- One line of `convert_brf` (pageable.py lines 348-355 and 360-363): map
the raw line through `alphas_to_pin_nums`, extend with
`[0] * (cells - len(line))` (a no-op when the line is already long
enough), and truncate to `cells` at write time (`line[:cells]`). -/
def brf_line_to_pins (cells : Nat) (raw : List Char) : List Nat :=
  let line := alphas_to_pin_nums raw
  (line ++ List.replicate (cells - line.length) 0).take cells

/-- `Library.convert_brf` (pageable.py lines 336-367): the byte content of
the native file written for the given brf file content. -/
def convert_brf_bytes (cells : Nat) (fileChars : List Char) : List Nat :=
  ((readlines fileChars).map (brf_line_to_pins cells)).flatten

example : readlines (("ab\ncd\n").toList) = [('a') :: [('b'), ('\n')], ('c') :: [('d'), ('\n')]] := by decide
example : readlines (("ab\ncd").toList) = [('a') :: [('b'), ('\n')], [('c'), ('d')]] := by decide
example : convert_brf_bytes 2 (("A1\n").toList) = [1, 2] := by decide

theorem table_upper_fixed : ∀ c ∈ brailleMapping, charUpper c = c := by decide

theorem newline_not_in_table : ('\n') ∉ brailleMapping := by decide

theorem readlinesAux_line (l rest acc : List Char) (hl : ('\n') ∉ l) :
    readlinesAux (l ++ ('\n') :: rest) acc =
      (acc.reverse ++ l ++ [('\n')]) :: readlinesAux rest [] := by
  induction l generalizing acc with
  | nil => simp [readlinesAux]
  | cons c cs ih =>
      have hc : c ≠ '\n' := fun h => hl (h ▸ List.mem_cons_self c cs)
      simp only [List.cons_append, readlinesAux, if_neg hc, List.append_eq]
      rw [ih (c :: acc) (fun h => hl (List.mem_cons_of_mem c h))]
      simp

theorem readlines_of_terminated_lines (lines : List (List Char))
    (h : ∀ l ∈ lines, ('\n') ∉ l) :
    readlines ((lines.map (fun l => l ++ [('\n')])).flatten) =
      lines.map (fun l => l ++ [('\n')]) := by
  induction lines with
  | nil => simp [readlines, readlinesAux]
  | cons l ls ih =>
      simp only [List.map_cons, List.flatten_cons]
      rw [List.append_assoc]
      have h1 : ([('\n')] ++ (ls.map (fun l => l ++ [('\n')])).flatten) =
          ('\n') :: (ls.map (fun l => l ++ [('\n')])).flatten := by simp
      rw [readlines, h1, readlinesAux_line l _ [] (h l (List.mem_cons_self l ls))]
      simp only [List.reverse_nil, List.nil_append]
      congr 1
      exact ih (fun x hx => h x (List.mem_cons_of_mem l hx))

theorem brf_line_of_table_line (cells : Nat) (l : List Char)
    (hlen : l.length = cells) (htab : ∀ c ∈ l, c ∈ brailleMapping) :
    brf_line_to_pins cells (l ++ [('\n')]) =
      l.map (fun c => brailleMapping.indexOf c) := by
  have hmap : alphas_to_pin_nums (l ++ [('\n')]) =
      l.map alpha_to_pin_num ++ [0] := by
    have h0 : alpha_to_pin_num ('\n') = 0 := by decide
    simp [alphas_to_pin_nums, h0]
  have hml : (l.map alpha_to_pin_num).length = cells := by simp [hlen]
  have hlen2 : (l.map alpha_to_pin_num ++ [0]).length = cells + 1 := by simp [hml]
  have hz : cells - (cells + 1) = 0 := by omega
  simp only [brf_line_to_pins, hmap, hlen2, hz, List.replicate_zero, List.append_nil]
  rw [← hml, List.take_left]
  apply List.map_congr_left
  intro c hc
  have hmem := htab c hc
  have hU : charUpper c = c := table_upper_fixed c hmem
  simp [alpha_to_pin_num, hU, hmem]

/-- Claim C3: for a brf file whose every line consists of exactly `cells`
characters, all present in the 64-entry Braille-ASCII table,
`Library.convert_brf` writes exactly one byte per input character, each
byte the character's table index.  The file is the newline-terminated
join of its lines; the `0` that `alphas_to_pin_nums` produces for each
terminating newline is cut off again by the `line[:cells]` truncation at
write time. -/
theorem convert_brf_round_trip (cells : Nat) (lines : List (List Char))
    (hc : 0 < cells)
    (hlen : ∀ l ∈ lines, l.length = cells)
    (htab : ∀ l ∈ lines, ∀ c ∈ l, c ∈ brailleMapping) :
    convert_brf_bytes cells ((lines.map (fun l => l ++ [('\n')])).flatten) =
      (lines.map (fun l => l.map (fun c => brailleMapping.indexOf c))).flatten := by
  have hnol : ∀ l ∈ lines, ('\n') ∉ l := by
    intro l hl hnl
    exact newline_not_in_table (htab l hl ('\n') hnl)
  rw [convert_brf_bytes, readlines_of_terminated_lines lines hnol, List.map_map]
  congr 1
  apply List.map_congr_left
  intro l hl
  exact brf_line_of_table_line cells l (hlen l hl) (htab l hl)

/-- Witness for `convert_brf_round_trip`: the one-line file consisting of
the characters `A1` and a newline, at cells = 2, yields the bytes [1, 2]. -/
theorem convert_brf_round_trip_witness :
    (0 : Nat) < 2 ∧
    (∀ l ∈ [[('A'), ('1')]], l.length = 2) ∧
    (∀ l ∈ [[('A'), ('1')]], ∀ c ∈ l, c ∈ brailleMapping) ∧
    convert_brf_bytes 2 (([[('A'), ('1')]].map (fun l => l ++ [('\n')])).flatten) =
      ([[('A'), ('1')]].map (fun l => l.map (fun c => brailleMapping.indexOf c))).flatten :=
  ⟨by decide, by decide, by decide,
    convert_brf_round_trip 2 [[('A'), ('1')]] (by decide) (by decide) (by decide)⟩

/-! ### Menu.option (pageable.py lines 161-191): claim C6 -/

/-- Python list subscripting `xs[i]` for a non-negative index: the element,
or an `IndexError`. -/
def pyIndex {α : Type} (xs : List α) (i : Nat) : Except String α :=
  match xs[i]? with
  | some x => Except.ok x
  | none => Except.error ("IndexError")

/-- The three bound methods a menu entry's `action` field can hold
(pageable.py lines 173-177). -/
inductive MenuAction where
  | refresh
  | shutdown
  | ignore
  deriving DecidableEq

/-- One entry of `self.menu`: a title and an action. -/
structure MenuEntry where
  title : String
  action : MenuAction
  deriving DecidableEq

/-- `self.menu` as built in `Menu.__init__` (pageable.py lines 173-177);
`ip` is whatever `get_ip_address` returned. -/
def menuEntries (ip : String) : List MenuEntry :=
  [{ title := "refresh library", action := MenuAction.refresh },
   { title := "shutdown", action := MenuAction.shutdown },
   { title := "ip: " ++ ip, action := MenuAction.ignore }]

/-- The externally visible effects of one `Menu.option` call: either the
selected entry's action runs, or `ui.driver.send_error_sound()` fires. -/
inductive MenuEvent where
  | invokeAction (a : MenuAction)
  | errorSound
  deriving DecidableEq

/-- `Menu.option` (pageable.py lines 184-191): resolve the absolute index
`number + page * rows`, try to call that entry's action, and turn an
`IndexError` into a single error sound on the driver instead of
re-raising.  The function is total: the event list is all that escapes. -/
def menu_option (ip : String) (page rows number : Nat) : List MenuEvent :=
  let menu_num := number + page * rows
  match pyIndex (menuEntries ip) menu_num with
  | Except.ok entry => [MenuEvent.invokeAction entry.action]
  | Except.error _ => [MenuEvent.errorSound]

/-- Claim C6: whenever the absolute menu index `number + page * rows` is
out of range of the menu entries, `Menu.option` does not raise to its
caller and triggers exactly one error indication (the event list is
exactly one `errorSound`); for every in-range absolute index it invokes
that entry's action. -/
theorem menu_option_out_of_range_sounds_error (ip : String) (page rows number : Nat) :
    ((menuEntries ip).length ≤ number + page * rows →
      menu_option ip page rows number = [MenuEvent.errorSound] ∧
      (menu_option ip page rows number).count MenuEvent.errorSound = 1) ∧
    (∀ h : number + page * rows < (menuEntries ip).length,
      menu_option ip page rows number =
        [MenuEvent.invokeAction ((menuEntries ip).get ⟨number + page * rows, h⟩).action]) := by
  constructor
  · intro hge
    have hnone : (menuEntries ip)[number + page * rows]? = none :=
      List.getElem?_eq_none hge
    constructor <;> simp [menu_option, pyIndex, hnone]
  · intro h
    have hsome : (menuEntries ip)[number + page * rows]? =
        some ((menuEntries ip).get ⟨number + page * rows, h⟩) := by
      rw [List.getElem?_eq_getElem h]
      simp
    simp [menu_option, pyIndex, hsome]

/-- Witness for `menu_option_out_of_range_sounds_error`: with 9 rows per
page, slot 0 of page 1 is absolute index 9, beyond the 3 menu entries, so
the call yields exactly one error sound; slot 1 of page 0 invokes the
shutdown entry. -/
theorem menu_option_out_of_range_sounds_error_witness :
    (menuEntries ("")).length ≤ 0 + 1 * 9 ∧
    (menu_option ("") 1 9 0 = [MenuEvent.errorSound] ∧
      (menu_option ("") 1 9 0).count MenuEvent.errorSound = 1) ∧
    menu_option ("") 0 9 1 = [MenuEvent.invokeAction MenuAction.shutdown] :=
  ⟨by decide,
   (menu_option_out_of_range_sounds_error ("") 1 9 0).1 (by decide),
   ((menu_option_out_of_range_sounds_error ("") 0 9 1).2 (by decide)).trans (by decide)⟩

/-! ### Library.get_book (pageable.py lines 433-449): claim C7 -/

/-- A book definition as `Library.add_book` builds it (pageable.py lines
319-321). -/
structure BookDef where
  title : String
  filename : String
  btype : String
  deriving DecidableEq

/-- An open book as far as `Book.__init__` constructs it: its definition
and the display dimensions; content comes from the external
`BookFile_List` bound to the definition's filename. -/
structure Book where
  book_def : BookDef
  dimensions : Nat × Nat
  deriving DecidableEq

/-- The errors `Library.get_book` can surface: the re-raised `IndexError`
("no book at slot n"), and `PageableError` from `Book.__init__` for an
unknown book type (pageable.py lines 444-445 and 467). -/
inductive LibError where
  | notFound (msg : String)
  | pageableError (msg : String)
  deriving DecidableEq

/-- `Book.__init__` (pageable.py lines 458-470) reduced to its decision:
a definition of type native yields a `Book`; any other type raises
`PageableError("unknown book type ...")`. -/
def book_from_def (bd : BookDef) (dims : Nat × Nat) : Except LibError Book :=
  if bd.btype = "native" then Except.ok { book_def := bd, dimensions := dims }
  else Except.error (LibError.pageableError ("unknown book type " ++ bd.btype))

/-- `Library.get_book` (pageable.py lines 433-449): resolve the absolute
index `book_num + page * rows`, probe the definition's fields (an
`IndexError` becomes `IndexError("no book at slot %d")`), otherwise build
a `Book` from that definition. -/
def get_book (defs : List BookDef) (dims : Nat × Nat) (page rows book_num : Nat) :
    Except LibError Book :=
  let idx := book_num + page * rows
  match pyIndex defs idx with
  | Except.ok bd => book_from_def bd dims
  | Except.error _ =>
      Except.error (LibError.notFound ("no book at slot " ++ toString idx))

/-- Claim C7: whenever the absolute index `book_num + page * rows` is out
of range of the catalog, `Library.get_book` fails with the not-found error
"no book at slot n" and constructs no `Book` (the error value carries
none); for every in-range index whose definition is of type native it
constructs and returns a `Book` from that definition. -/
theorem get_book_not_found_out_of_range (defs : List BookDef) (dims : Nat × Nat)
    (page rows book_num : Nat) :
    (defs.length ≤ book_num + page * rows →
      get_book defs dims page rows book_num =
        Except.error (LibError.notFound
          ("no book at slot " ++ toString (book_num + page * rows)))) ∧
    (∀ h : book_num + page * rows < defs.length,
      (defs.get ⟨book_num + page * rows, h⟩).btype = "native" →
        get_book defs dims page rows book_num =
          Except.ok { book_def := defs.get ⟨book_num + page * rows, h⟩,
                      dimensions := dims }) := by
  constructor
  · intro hge
    have hnone : defs[book_num + page * rows]? = none := List.getElem?_eq_none hge
    simp [get_book, pyIndex, hnone]
  · intro h hnative
    have hsome : defs[book_num + page * rows]? =
        some (defs.get ⟨book_num + page * rows, h⟩) := by
      rw [List.getElem?_eq_getElem h]
      simp
    rw [List.get_eq_getElem] at hnative
    simp [get_book, pyIndex, hsome, book_from_def, hnative]

/-- Witness for `get_book_not_found_out_of_range` on a one-book catalog:
slot 1 of page 0 (rows = 1) is out of range and fails with "no book at
slot 1"; slot 0 returns the book. -/
theorem get_book_not_found_out_of_range_witness :
    [BookDef.mk ("t") ("t.canute") ("native")].length ≤ 1 + 0 * 1 ∧
    get_book [BookDef.mk ("t") ("t.canute") ("native")] (40, 9) 0 1 1 =
      Except.error (LibError.notFound ("no book at slot " ++ toString (1 + 0 * 1))) ∧
    get_book [BookDef.mk ("t") ("t.canute") ("native")] (40, 9) 0 1 0 =
      Except.ok { book_def := BookDef.mk ("t") ("t.canute") ("native"),
                  dimensions := (40, 9) } :=
  ⟨by decide,
   (get_book_not_found_out_of_range [BookDef.mk ("t") ("t.canute") ("native")]
      (40, 9) 0 1 1).1 (by decide),
   ((get_book_not_found_out_of_range [BookDef.mk ("t") ("t.canute") ("native")]
      (40, 9) 0 1 0).2 (by decide) (by rfl)).trans (by rfl)⟩

/-! ### Library.add_book (pageable.py lines 286-333): claim C8

The Library's mutable world: the in-memory book-definition list, the paged
title content, the persisted catalog (`book_defs.pkl`), and the library
directory's files. -/

/-- A file as the model sees it: brf text, native bytes, or a pef file in
its parsed-XML view (`none` for a file `xml.dom.minidom.parse` rejects). -/
inductive FileData where
  | textData (chars : List Char)
  | byteData (content : List Nat)
  | pefData (parsed : Option (List (Option (List Char))))
  deriving DecidableEq

/-- The state `Library.add_book` can touch. -/
structure LibState where
  book_defs : List BookDef
  content : List (List Nat)
  saved_defs : List BookDef
  fs : List (String × FileData)
  deriving DecidableEq

/-- Write (create or truncate) a file. -/
def fsWrite (fs : List (String × FileData)) (path : String) (d : FileData) :
    List (String × FileData) :=
  (fs.filter (fun e => e.1 != path)) ++ [(path, d)]

/-- `os.remove`. -/
def fsRemove (fs : List (String × FileData)) (path : String) :
    List (String × FileData) :=
  fs.filter (fun e => e.1 != path)

/-- Open a file for reading. -/
def fsLookup (fs : List (String × FileData)) (path : String) : Option FileData :=
  (fs.find? (fun e => e.1 == path)).map (fun e => e.2)

/-- `os.path.basename`: the part after the last slash. -/
def os_path_basename (s : String) : String :=
  (s.toList.foldl (fun acc c => if c = '/' then [] else acc ++ [c]) []).asString

/-- Index of the last dot of the name, if any. -/
def lastDotIdx (cs : List Char) : Option Nat :=
  (List.range cs.length).foldl
    (fun acc i => if cs.getD i (' ') = '.' then some i else acc) none

/-- `os.path.splitext` on a basename: split at the last dot unless every
character before it is itself a dot (leading dots never start an
extension). -/
def splitextList (cs : List Char) : List Char × List Char :=
  match lastDotIdx cs with
  | none => (cs, [])
  | some d =>
      if (cs.take d).any (fun c => c != '.') then (cs.take d, cs.drop d)
      else (cs, [])

/-- `os.path.splitext` on strings: (root, extension). -/
def splitext (s : String) : String × String :=
  let p := splitextList s.toList
  (p.1.asString, p.2.asString)

example : splitext ("book.brf") = ("book", ".brf") := by decide
example : splitext (".brf") = (".brf", "") := by decide
example : splitext ("archive.tar.gz") = ("archive.tar", ".gz") := by decide

/-- Modelled from the spec: `pin_nums_to_alphas` is imported from utility
by pageable.py but its body is not under src/; spec §4.11 describes it as
the inverse table lookup, pin value → character, over the same 64-entry
table, used purely as a sort key. -/
def pin_nums_to_alphas (pins : List Nat) : String :=
  (pins.map (fun p => brailleMapping.getD p (' '))).asString

/-- Stable insertion for the key-based sorts Python's `sorted` performs:
an element goes after every element whose key is not larger. -/
def insertByKey {α : Type} (key : α → String) (a : α) : List α → List α
  | [] => [a]
  | b :: bs => if key b ≤ key a then b :: insertByKey key a bs else a :: b :: bs

/-- `sorted(l, key=key)`. -/
def sortByKey {α : Type} (key : α → String) (l : List α) : List α :=
  l.foldr (insertByKey key) []

/-- `Library.convert_brf` (pageable.py lines 336-367) as a state step: read
the brf file (a missing file means `open` raises `IOError` out of the
method before any mutation), write the converted bytes to the native file,
and delete the source when `remove` is set. -/
def convert_brf_step (cells : Nat) (st : LibState) (brf_file native_file : String)
    (remove : Bool) : LibState × Option String :=
  match fsLookup st.fs brf_file with
  | some (FileData.textData chars) =>
      let outBytes := FileData.byteData (convert_brf_bytes cells chars)
      let st1 : LibState := { st with fs := fsWrite st.fs native_file outBytes }
      let st2 : LibState :=
        if remove then { st1 with fs := fsRemove st1.fs brf_file } else st1
      (st2, none)
  | _ => (st, some ("IOError"))

/-- One `<row>` of `convert_pef` (pageable.py lines 392-407): the row text
through `unicode_to_pin_num` character by character; a row element with no
text child (`IndexError`) becomes a full blank row; then the right-pad
with zeros and the `line[:cells]` truncation at write time. -/
def pef_row_to_pins (cells : Nat) (row : Option (List Char)) : List Nat :=
  let line := match row with
    | some data => data.map (fun c => unicode_to_pin_num c.toNat)
    | none => List.replicate cells 0
  (line ++ List.replicate (cells - line.length) 0).take cells

/-- `Library.convert_pef` (pageable.py lines 369-418) as a state step.  The
XML parse of the source is the stored `pefData`: a failed parse deletes the
source and returns without raising; a missing file ends in an uncaught
`OSError` (the bare `except:` catches the open failure, then `os.remove`
itself fails).  On success the converted bytes are written and the source
deleted. -/
def convert_pef_step (cells : Nat) (st : LibState) (pef_file native_file : String) :
    LibState × Option String :=
  match fsLookup st.fs pef_file with
  | some (FileData.pefData none) =>
      ({ st with fs := fsRemove st.fs pef_file }, none)
  | some (FileData.pefData (some rows)) =>
      let outBytes := FileData.byteData ((rows.map (pef_row_to_pins cells)).flatten)
      let st1 : LibState := { st with fs := fsWrite st.fs native_file outBytes }
      ({ st1 with fs := fsRemove st1.fs pef_file }, none)
  | _ => (st, some ("OSError"))

/-- The registration tail of `add_book` (pageable.py lines 314-333): default
the name, append the native-typed definition, sort the catalog by title,
persist it, and insert the title into the paged content, which
`add_new_item` re-sorts by the alphabetic rendering of its pin numbers. -/
def add_book_register (st : LibState) (book_file basename : String)
    (name : Option String) : LibState × Option String :=
  let name := name.getD basename
  let book_def : BookDef := { title := name, filename := book_file, btype := "native" }
  let defs := sortByKey (fun bd => bd.title) (st.book_defs ++ [book_def])
  let content := sortByKey pin_nums_to_alphas
    (st.content ++ [alphas_to_pin_nums name.toList])
  ({ st with book_defs := defs, saved_defs := defs, content := content }, none)

/-- `Library.add_book` (pageable.py lines 286-333): dispatch on the file
extension — `.pef` and `.brf` convert to a native file first, the native
extension is used as is, and anything else raises
`PageableError("book ... in unknown format ...")` before any state is
touched. -/
def add_book (cells : Nat) (book_dir : String) (st : LibState) (book_file : String)
    (name : Option String) (remove : Bool) : LibState × Option String :=
  let basename := (splitext (os_path_basename book_file)).1
  let ext := (splitext (os_path_basename book_file)).2
  if ext = ".pef" then
    let native_file := book_dir ++ basename ++ ".canute"
    let r := convert_pef_step cells st book_file native_file
    match r.2 with
    | some e => (r.1, some e)
    | none => add_book_register r.1 native_file basename name
  else if ext = ".brf" then
    let native_file := book_dir ++ basename ++ ".canute"
    let r := convert_brf_step cells st book_file native_file remove
    match r.2 with
    | some e => (r.1, some e)
    | none => add_book_register r.1 native_file basename name
  else if ext = ".canute" then
    add_book_register st book_file basename name
  else
    (st, some ("book " ++ book_file ++ " in unknown format " ++ ext))

/-- Claim C8: for every file path whose extension is none of `.pef`,
`.brf` and the native `.canute`, `Library.add_book` fails with the
unknown-format error and aborts atomically: the in-memory
book-definition list, the paged title content, the persisted catalog and
the file system (so in particular no native file) are all left exactly as
they were. -/
theorem add_book_unknown_format_aborts (cells : Nat) (book_dir : String)
    (st : LibState) (book_file : String) (name : Option String) (remove : Bool)
    (hext : (splitext (os_path_basename book_file)).2 ∉
      [(".pef" : String), (".brf" : String), (".canute" : String)]) :
    add_book cells book_dir st book_file name remove =
      (st, some ("book " ++ book_file ++ " in unknown format " ++
        (splitext (os_path_basename book_file)).2)) ∧
    (add_book cells book_dir st book_file name remove).1.book_defs = st.book_defs ∧
    (add_book cells book_dir st book_file name remove).1.content = st.content ∧
    (add_book cells book_dir st book_file name remove).1.saved_defs = st.saved_defs ∧
    (add_book cells book_dir st book_file name remove).1.fs = st.fs := by
  simp only [List.mem_cons, not_or] at hext
  obtain ⟨h1, h2, h3, -⟩ := hext
  have heq : add_book cells book_dir st book_file name remove =
      (st, some ("book " ++ book_file ++ " in unknown format " ++
        (splitext (os_path_basename book_file)).2)) := by
    simp only [add_book]
    rw [if_neg h1, if_neg h2, if_neg h3]
  exact ⟨heq, by rw [heq], by rw [heq], by rw [heq], by rw [heq]⟩

/-- Witness for `add_book_unknown_format_aborts`: adding `/lib/book.txt`
to an empty library state fails with the unknown-format error and changes
nothing. -/
theorem add_book_unknown_format_aborts_witness :
    (splitext (os_path_basename ("/lib/book.txt"))).2 ∉
      [(".pef" : String), (".brf" : String), (".canute" : String)] ∧
    add_book 40 ("/lib/") (LibState.mk [] [] [] []) ("/lib/book.txt") none true =
      (LibState.mk [] [] [] [],
        some ("book " ++ "/lib/book.txt" ++ " in unknown format " ++
          (splitext (os_path_basename ("/lib/book.txt"))).2)) :=
  ⟨by decide,
   (add_book_unknown_format_aborts 40 ("/lib/") (LibState.mk [] [] [] [])
      ("/lib/book.txt") none true (by decide)).1⟩

/-! ### DriverBoth (driver_both.py lines 28-39): claim C9 -/

/-- One backend invocation as the combined driver's call log records it:
which backend, which Driver-interface method, which argument. -/
inductive BackendCall (A : Type) where
  | emulated (method : String) (arg : A)
  | physical (method : String) (arg : A)
  deriving DecidableEq

/-- The combined driver's world: the Emulated backend's state, the
Physical backend's state, and the log of backend invocations in order. -/
structure BothState (ES PS A : Type) where
  es : ES
  ps : PS
  callLog : List (BackendCall A)

/-- The body `make_method` builds for a forwarded name (driver_both.py
lines 31-38): look the method up on both backends, call the emulated one
first, then the physical one with the same arguments, and return the
emulated result; the physical backend's return value (of arbitrary,
possibly different type `RP`) is dropped. -/
def make_method {ES PS A R RP : Type} (emuImpl : String → ES → A → ES × R)
    (piImpl : String → PS → A → PS × RP) (method_name : String)
    (s : BothState ES PS A) (arg : A) : BothState ES PS A × R :=
  let er := emuImpl method_name s.es arg
  let pr := piImpl method_name s.ps arg
  ({ es := er.1, ps := pr.1,
     callLog := s.callLog ++
       [BackendCall.emulated method_name arg, BackendCall.physical method_name arg] },
   er.2)

/-- Modelled from the spec: `utility.get_methods` is referenced by
driver_both.py but not under src/; per spec §4.5 it enumerates a class's
method names, and the synthesis loop (driver_both.py lines 28-39) gives
every Driver method name that DriverBoth does not define itself the
forwarding body.  Attribute lookup on the finished class: a bespoke
DriverBoth method wins, otherwise a Driver method name resolves to
`make_method`, and other names stay absent. -/
def driverBothLookup {ES PS A R RP : Type} (driverMethodNames : List String)
    (definedMethods : String → Option (BothState ES PS A → A → BothState ES PS A × R))
    (emuImpl : String → ES → A → ES × R) (piImpl : String → PS → A → PS × RP)
    (name : String) : Option (BothState ES PS A → A → BothState ES PS A × R) :=
  match definedMethods name with
  | some m => some m
  | none =>
      if name ∈ driverMethodNames then some (make_method emuImpl piImpl name)
      else none

/-- Claim C9: every Driver-interface operation that DriverBoth does not
define itself resolves to the synthesized forwarding method, which, for
all argument values, invokes the operation on the Emulated backend first
and then on the Physical backend with the same arguments, and returns
exactly the Emulated backend's return value (the Physical backend's
return value, of a possibly different type, never reaches the result). -/
theorem driver_both_forwards {ES PS A R RP : Type} (driverMethodNames : List String)
    (definedMethods : String → Option (BothState ES PS A → A → BothState ES PS A × R))
    (emuImpl : String → ES → A → ES × R) (piImpl : String → PS → A → PS × RP)
    (name : String)
    (hundef : definedMethods name = none) (hmem : name ∈ driverMethodNames) :
    driverBothLookup driverMethodNames definedMethods emuImpl piImpl name =
      some (make_method emuImpl piImpl name) ∧
    ∀ (s : BothState ES PS A) (arg : A),
      (make_method emuImpl piImpl name s arg).2 = (emuImpl name s.es arg).2 ∧
      (make_method emuImpl piImpl name s arg).1.callLog =
        s.callLog ++ [BackendCall.emulated name arg, BackendCall.physical name arg] ∧
      (make_method emuImpl piImpl name s arg).1.es = (emuImpl name s.es arg).1 ∧
      (make_method emuImpl piImpl name s arg).1.ps = (piImpl name s.ps arg).1 := by
  refine ⟨?_, fun s arg => ⟨rfl, rfl, rfl, rfl⟩⟩
  simp [driverBothLookup, hundef, hmem]

/-- Witness for `driver_both_forwards` at a concrete Driver interface with
method name `send_data`, no bespoke DriverBoth override, an emulated
backend returning a number and a physical backend returning a Bool. -/
theorem driver_both_forwards_witness :
    driverBothLookup [("send_data")]
        (fun _ => (none : Option (BothState Nat Nat Nat → Nat → BothState Nat Nat Nat × Nat)))
        (fun _ es a => (es + a, a)) (fun _ ps a => (ps * 2, true)) ("send_data") =
      some (make_method (fun _ es a => (es + a, a)) (fun _ ps a => (ps * 2, true))
        ("send_data")) ∧
    (make_method (fun _ es a => (es + a, a)) (fun _ ps a => (ps * 2, true))
        ("send_data") (BothState.mk 0 0 []) 5).2 = 5 ∧
    (make_method (fun _ es a => (es + a, a)) (fun _ ps a => (ps * 2, true))
        ("send_data") (BothState.mk 0 0 []) 5).1.callLog =
      [BackendCall.emulated ("send_data") 5, BackendCall.physical ("send_data") 5] := by
  have h := driver_both_forwards [("send_data")]
    (fun _ => (none : Option (BothState Nat Nat Nat → Nat → BothState Nat Nat Nat × Nat)))
    (fun _ es a => (es + a, a)) (fun _ ps a => (ps * 2, true)) ("send_data")
    rfl (by simp)
  refine ⟨h.1, ?_, ?_⟩
  · exact ((h.2 (BothState.mk 0 0 []) 5).1).trans (by rfl)
  · exact ((h.2 (BothState.mk 0 0 []) 5).2.1).trans (by simp)

end CanuteUI
